import Mathlib

/-!
Shallow embedding of the deploy worker of rise-server
(src/deployer/deployer/deployer.go, function Work) together with the
small amount of surrounding model code the worker manipulates.

The worker is embedded as a pure function from an environment -- the
loaded deployment and project rows, the archive entries extracted from
the downloaded bundle, and the success or failure of each external call
(database, object store, message bus, clock) -- to a result, an ordered
trace of externally visible effects, and the final durable database
state.  Machine integers of the source (int64 sizes, ids) are modelled
as Nat: every value involved is non-negative and no arithmetic that
could overflow is performed by the source.
-/

namespace Rise

/-- Deployment states, from apiserver/models/deployment (the constants
StateUploaded, StatePendingUpload, StateDeployed, StateDeployFailed,
StatePendingDeploy referenced by the worker). -/
inductive DeployState where
  | pendingUpload
  | uploaded
  | pendingDeploy
  | deployed
  | deployFailed
  deriving DecidableEq, Repr

/-- JSON values, used to model the js_env_vars column (a raw JSON byte
string in the source; here kept structurally, with Json.render giving
the byte string the source stores). -/
inductive Json where
  | null
  | bool (b : Bool)
  | num (n : Int)
  | str (s : String)
  | arr (xs : List Json)
  | obj (fields : List (String × Json))

/-- Whether a JSON value is a string. -/
def Json.isStr : Json → Bool
  | .str _ => true
  | _ => false

mutual

/-- Byte rendering of a JSON value (compact form, no escaping: the
model only ever renders member names and string values drawn from the
escape-free fragment). -/
def Json.render : Json → String
  | .null => "null"
  | .bool true => "true"
  | .bool false => "false"
  | .num n => toString n
  | .str s => "\x22" ++ s ++ "\x22"
  | .arr xs => "[" ++ Json.renderArr xs ++ "]"
  | .obj fs => "\x7b" ++ Json.renderObj fs ++ "\x7d"

/-- Renders the elements of a JSON array, comma separated. -/
def Json.renderArr : List Json → String
  | [] => ""
  | [x] => Json.render x
  | x :: y :: xs => Json.render x ++ "," ++ Json.renderArr (y :: xs)

/-- Renders the members of a JSON object, comma separated. -/
def Json.renderObj : List (String × Json) → String
  | [] => ""
  | [kv] => "\x22" ++ kv.1 ++ "\x22:" ++ Json.render kv.2
  | kv :: kw :: fs =>
      "\x22" ++ kv.1 ++ "\x22:" ++ Json.render kv.2 ++ "," ++ Json.renderObj (kw :: fs)

end

/-- Decoding of JSON object members into string pairs: fails as soon
as one member value is not a string. -/
def unmarshalFields : List (String × Json) → Option (List (String × String))
  | [] => some []
  | kv :: fs =>
      match kv.2, unmarshalFields fs with
      | .str s, some m => some ((kv.1, s) :: m)
      | _, _ => none

/-- Go json.Unmarshal of a JSON value into a map from string to string
(the type the worker uses for the js env vars at deployer.go:243-246):
succeeds on null and on objects all of whose member values are strings,
and fails on everything else. -/
def unmarshalStringMap : Json → Option (List (String × String))
  | .null => some []
  | .obj fs => unmarshalFields fs
  | _ => none

/-- The deployment row as loaded in memory by the worker.  The source
column name for prefixName is prefix, a Lean keyword. -/
structure Deployment where
  id : Nat
  projectID : Nat
  userID : Nat
  prefixName : String
  state : DeployState
  jsEnvVars : Json
  rawBundleID : Option Nat
  errorMessage : Option String
  version : Nat

/-- Modelled from the spec: PrefixID is prefix ++ "-" ++ id, the unique
path segment for per-deployment object keys (the body of
deployment.PrefixID is not under src). -/
def Deployment.prefixID (d : Deployment) : String :=
  d.prefixName ++ "-" ++ toString d.id

/-- The project row as loaded in memory by the worker. -/
structure Project where
  id : Nat
  name : String
  watermark : Bool
  forceHTTPS : Bool
  basicAuthUsername : Option String
  encryptedBasicAuthPassword : Option String
  maxDeploysKept : Nat
  activeDeploymentID : Option Nat

/-- One row of the deployments table as durably stored, restricted to
the columns the worker writes.  The rows list of DbState is ordered
from oldest to newest deployment. -/
structure DeplRow where
  id : Nat
  state : DeployState
  errorMessage : Option String
  deployedAt : Bool
  deleted : Bool
  deriving DecidableEq, Repr

/-- Durable database state touched by the worker: the project
deployments table and the active_deployment_id column of the project
row. -/
structure DbState where
  rows : List DeplRow
  activeDeploymentID : Option Nat
  deriving DecidableEq, Repr

/-- Modelled from the spec: deployment.UpdateState (body not under src)
persists the given state for the deployment row, marks deployed_at set
when the new state is deployed, and persists the in-memory
error_message (spec 4.6 timeout step and invariant 4 of spec section
8). -/
def applyUpdateState (s : DbState) (deplID : Nat) (st : DeployState)
    (errMsg : Option String) : DbState :=
  { s with
    rows := s.rows.map fun r =>
      if r.id = deplID then
        { r with
          state := st
          errorMessage := errMsg
          deployedAt := r.deployedAt || st == DeployState.deployed }
      else r }

/-- Modelled from the spec: deployment.DeleteExceptLastN (body not
under src) soft-deletes deployments in deployed state older than the
most recent n, within the caller transaction (spec section 4.3). -/
def deleteExceptLastN (s : DbState) (n : Nat) : DbState :=
  let deployedIds :=
    ((s.rows.filter fun r => r.state == DeployState.deployed && !r.deleted).map
      fun r => r.id)
  let keep := deployedIds.drop (deployedIds.length - n)
  { s with
    rows := s.rows.map fun r =>
      if r.state == DeployState.deployed && !r.deleted && !(keep.contains r.id) then
        { r with deleted := true }
      else r }

/-- The job payload (messages.DeployJobData). -/
structure DeployJobData where
  deploymentID : Nat
  skipWebrootUpload : Bool
  useRawBundle : Bool
  skipInvalidation : Bool
  deriving DecidableEq, Repr

/-- One archive entry as yielded by the tar reader. -/
structure TarEntry where
  name : String
  isDir : Bool
  size : Nat
  content : String
  deriving DecidableEq, Repr

/-- MaxFileSizeToWatermark (deployer.go:40), in bytes. -/
def maxFileSizeToWatermark : Nat := 5 * 1000 * 1000

/-- Splits the remaining characters at every occurrence of the
separator, the first argument accumulating the current piece in
reverse. -/
def splitOnCharAux (sep : Char) (acc : List Char) : List Char → List String
  | [] => [String.mk acc.reverse]
  | c :: cs =>
      if c = sep then String.mk acc.reverse :: splitOnCharAux sep [] cs
      else splitOnCharAux sep (c :: acc) cs

/-- Splitting of a string on a separator character, with the splitOn
convention: adjacent separators and separators at either end yield
empty pieces, and the empty string yields one empty piece. -/
def splitOnChar (sep : Char) (s : String) : List String :=
  splitOnCharAux sep [] s.data

/-- Joins components with slashes (the inverse of splitting on the
slash, for nonempty component lists). -/
def joinSlash : List String → String
  | [] => ""
  | [x] => x
  | x :: y :: xs => x ++ "/" ++ joinSlash (y :: xs)

/-- Whether the string begins with a slash. -/
def startsWithSlash (s : String) : Bool :=
  match s.data with
  | c :: _ => c = '/'
  | [] => false

/-- One step of the lexical path cleaning: the stack holds the output
components most recent first; rooted says whether the input began with
a slash. -/
def cleanStep (rooted : Bool) (stack : List String) (comp : String) : List String :=
  if comp = "" ∨ comp = "." then stack
  else if comp = ".." then
    match stack with
    | top :: rest => if top = ".." then ".." :: top :: rest else rest
    | [] => if rooted then [] else [".."]
  else comp :: stack

/-- Go path.Clean (the lexical cleaning the worker applies to each
entry name at deployer.go:179): drops empty and dot components,
resolves dot-dot against preceding components, keeps leading dot-dot
components of relative paths, and returns dot for an empty result. -/
def pathClean (p : String) : String :=
  if p = "" then "."
  else
    let rooted := startsWithSlash p
    let stack := (splitOnChar '/' p).foldl (cleanStep rooted) []
    let out := joinSlash stack.reverse
    if rooted then "/" ++ out
    else if out = "" then "." else out

/-- Scans the characters of a path from its end (first argument
accumulates the suffix already passed, in order) and returns the
extension at the first dot found, or the empty string at a path
separator or the start. -/
def extAux (acc : List Char) : List Char → String
  | [] => ""
  | c :: rest =>
      if c = '/' then ""
      else if c = '.' then String.mk ('.' :: acc)
      else extAux (c :: acc) rest

/-- Go filepath.Ext: the suffix of the last path component beginning at
its final dot, or empty when that component has no dot. -/
def filepathExt (p : String) : String :=
  extAux [] p.toList.reverse

/-- Modelled from the spec and the Go mime package (mime.TypeByExtension
plus the registrations of shared/mimetypes, neither under src): the
extension-to-content-type table, restricted to the extensions the
development exercises; unknown extensions map to the empty string. -/
def mimeTypeByExtension (ext : String) : String :=
  if ext = ".html" ∨ ext = ".htm" then "text/html; charset=utf-8"
  else if ext = ".css" then "text/css; charset=utf-8"
  else if ext = ".js" then "application/javascript"
  else if ext = ".json" then "application/json"
  else if ext = ".png" then "image/png"
  else ""

/-- Truncation of a content type before its first semicolon
(deployer.go:198-200); a type with no semicolon is unchanged. -/
def stripContentTypeParams (s : String) : String :=
  match splitOnChar ';' s with
  | [] => s
  | x :: _ => x

/-- The character class of the filename filter (deployer.go:161): the
regular expression matches any character outside
0-9 A-Z a-z comma bang underscore quote parens dot star hyphen, and an
entry is skipped when some path component contains such a character.
Char.ofNat 39 is the single quote. -/
def isAllowedChar (c : Char) : Bool :=
  (decide ('0' ≤ c) && decide (c ≤ '9')) ||
  (decide ('A' ≤ c) && decide (c ≤ 'Z')) ||
  (decide ('a' ≤ c) && decide (c ≤ 'z')) ||
  c == ',' || c == '!' || c == '_' || c == Char.ofNat 39 ||
  c == '(' || c == ')' || c == '.' || c == '*' || c == '-'

/-- A path component passes the filter when every character is in the
allowed class (the source regexp matches one or more characters outside
the class; a component with no such character is valid, so the empty
component is valid). -/
def validPathElement (s : String) : Bool :=
  s.toList.all isAllowedChar

/-- The filename check of deployer.go:183-190: split the cleaned name
on the path separator (slash on the target platform) and require every
component valid. -/
def validFileName (fileName : String) : Bool :=
  (splitOnChar '/' fileName).all validPathElement

/-- Externally visible effects of a worker run, in order.  An upload
effect records an upload call handed to the object store client (key,
byte content, content type, ACL); a download effect records a bundle
download; a publish effect records a message successfully delivered to
the bus; the tx effects record the commit transaction; unlock records
the deferred release of the project advisory lock. -/
inductive Effect where
  | download (key : String)
  | upload (key : String) (content : String) (contentType : String) (acl : String)
  | publish (exchange : String) (routingKey : String) (domains : List String)
  | txBegin
  | txCommit
  | txRollback
  | unlock
  deriving DecidableEq, Repr

/-- Whether an effect is an object upload. -/
def Effect.isUpload : Effect → Bool
  | .upload _ _ _ _ => true
  | _ => false

/-- Whether an effect is a bus publish. -/
def Effect.isPublish : Effect → Bool
  | .publish _ _ _ => true
  | _ => false

/-- Whether an effect is an upload to the given key. -/
def uploadsTo (key : String) : Effect → Bool
  | .upload k _ _ _ => decide (k = key)
  | _ => false

/-- Errors the worker can return, one constructor per return site of
Work. -/
inductive WorkError where
  | dbConn
  | findDepl
  | findProj
  | lockFailed
  | projectLocked
  | unexpectedState
  | tempFile
  | download
  | gzip
  | tarNext
  | uploadErr
  | timeout
  | jsenvUnmarshal
  | jsenvUpload
  | domainNamesErr
  | metaUpload
  | newMessage
  | publish
  | txBeginErr
  | txUpdateState
  | txUpdateProj
  | txDelete
  | txCommitErr
  deriving DecidableEq, Repr

/-- The outcome of a worker run: nil, or an error. -/
inductive Outcome where
  | ok
  | err (e : WorkError)
  deriving DecidableEq, Repr

/-- The environment of one worker run: the rows its queries return, the
archive entries the bundle extracts to, and the success or failure of
each external call.  Functions keyed by object key or by content let a
single run give different answers per call, as the real collaborators
can. -/
structure Env where
  dbOk : Bool
  findDeplOk : Bool
  depl : Deployment
  findProjOk : Bool
  proj : Project
  lockErr : Bool
  lockAcquired : Bool
  tempFileOk : Bool
  rawBundlePath : Option String
  downloadOk : Bool
  gzipOk : Bool
  entries : List TarEntry
  tarErr : Bool
  uploadOk : String → Bool
  watermarkResult : String → Option String
  timeout : Bool
  updateStateDbOk : Bool
  domainNamesOk : Bool
  domainNames : List String
  newMessageOk : Bool
  publishOk : Bool
  beginOk : Bool
  updateStateTxOk : Bool
  updateProjOk : Bool
  deleteOk : Bool
  commitOk : Bool
  db : DbState

/-- Result of a worker run: outcome, ordered effect trace, final
durable database state. -/
structure WorkResult where
  result : Outcome
  trace : List Effect
  db : DbState
  deriving Repr

/-- What processing one archive entry does (deployer.go:164-224):
directory entries and entries with invalid names are skipped, an entry
whose watermark injection fails is skipped, otherwise the entry is
uploaded (recording key, content and content type) and the loop aborts
when that upload fails. -/
inductive EntryStep where
  | skipDir
  | skipInvalid
  | skipWatermark
  | uploadedOk (key : String) (content : String) (contentType : String)
  | uploadFailed (key : String) (content : String) (contentType : String)
  deriving DecidableEq, Repr

/-- The content an entry step hands to the object store, when it hands
one. -/
def EntryStep.contentOf : EntryStep → Option String
  | .uploadedOk _ c _ => some c
  | .uploadFailed _ c _ => some c
  | _ => none

/-- Processing of one archive entry, deployer.go:175-223: skip
directories, clean the name, skip invalid filenames, derive the content
type from the extension and strip its parameters, route eligible
content through the watermark injector (skipping the entry when the
injector fails), and upload to the webroot key with ACL public-read. -/
def processEntry (env : Env) (webroot : String) (e : TarEntry) : EntryStep :=
  if e.isDir then .skipDir
  else
    let fileName := pathClean e.name
    let remotePath := webroot ++ "/" ++ fileName
    if !validFileName fileName then .skipInvalid
    else
      let contentType := stripContentTypeParams (mimeTypeByExtension (filepathExt fileName))
      if env.proj.watermark = true ∧ contentType = "text/html" ∧
          e.size ≤ maxFileSizeToWatermark then
        match env.watermarkResult e.content with
        | none => .skipWatermark
        | some w =>
            if env.uploadOk remotePath then .uploadedOk remotePath w contentType
            else .uploadFailed remotePath w contentType
      else
        if env.uploadOk remotePath then .uploadedOk remotePath e.content contentType
        else .uploadFailed remotePath e.content contentType

/-- The extractor and upload loop (the goroutine of deployer.go:164-227)
over the remaining entries: returns the upload calls it makes, in
order, and the error it sends on the error channel, if any.  A tar read
error (env.tarErr) surfaces after the listed entries; the loop stops at
the first failed upload. -/
def runLoop (env : Env) (webroot : String) : List TarEntry → List Effect × Option WorkError
  | [] => ([], if env.tarErr then some WorkError.tarNext else none)
  | e :: rest =>
      match processEntry env webroot e with
      | .skipDir => runLoop env webroot rest
      | .skipInvalid => runLoop env webroot rest
      | .skipWatermark => runLoop env webroot rest
      | .uploadedOk k c t =>
          let r := runLoop env webroot rest
          (Effect.upload k c t "public-read" :: r.1, r.2)
      | .uploadFailed k c t =>
          ([Effect.upload k c t "public-read"], some WorkError.uploadErr)

/-- The bundle key selection of deployer.go:124-135: the optimized
bundle by default; with use_raw_bundle, the recorded raw bundle path
when the deployment references a raw bundle row that loads (a load
error is ignored, keeping the optimized key), and the raw bundle key of
this deployment otherwise. -/
def bundlePathFor (env : Env) (d : DeployJobData) (pid : String) : String :=
  if d.useRawBundle then
    match env.depl.rawBundleID with
    | some _ =>
        match env.rawBundlePath with
        | some p => p
        | none => "deployments/" ++ pid ++ "/optimized-bundle.tar.gz"
    | none => "deployments/" ++ pid ++ "/raw-bundle.tar.gz"
  else "deployments/" ++ pid ++ "/optimized-bundle.tar.gz"

/-- The <JSON> independent head of the jsenv template, exactly the
bytes of the source raw string literal jsenvFormat (deployer.go:44-51,
tab indented) up to the %s verb. -/
def jsenvHead : String :=
  "(function(global, env) \x7b\n\tif (typeof module === \x22object\x22 && typeof module.exports === \x22object\x22) \x7b\n\t\tmodule.exports = env;\n\t\x7d else \x7b\n\t\tglobal.JSENV = env;\n\t\x7d\n\x7d(this, "

/-- The tail of the source jsenv template after the %s verb. -/
def jsenvTail : String := "));\n"

/-- fmt.Sprintf of the source template jsenvFormat at the js env var
bytes (deployer.go:251). -/
def jsenvContent (jsonBytes : String) : String :=
  jsenvHead ++ jsonBytes ++ jsenvTail

/-- The jsenv template exactly as the spec section 4.6 displays it,
space indented, with the same substitution; kept side by side with
jsenvContent to compare the spec wording against the source. -/
def specJsenvContent (jsonBytes : String) : String :=
  "(function(global, env) \x7b\n  if (typeof module === \x22object\x22 && typeof module.exports === \x22object\x22) \x7b\n    module.exports = env;\n  \x7d else \x7b\n    global.JSENV = env;\n  \x7d\n\x7d(this, " ++ jsonBytes ++ "));\n"

/-- The per-domain metadata document of deployer.go:259-269, as Go
json.Marshal renders that struct: prefix always, force_https omitted
when false, the basic auth fields omitted when null. -/
def metaJson (pid : String) (proj : Project) : String :=
  "\x7b\x22prefix\x22:\x22" ++ pid ++ "\x22" ++
  (if proj.forceHTTPS then ",\x22force_https\x22:true" else "") ++
  (match proj.basicAuthUsername with
   | some u => ",\x22basic_auth_username\x22:\x22" ++ u ++ "\x22"
   | none => "") ++
  (match proj.encryptedBasicAuthPassword with
   | some p => ",\x22basic_auth_password\x22:\x22" ++ p ++ "\x22"
   | none => "") ++
  "\x7d"

/-- The metadata upload loop of deployer.go:281-287: one upload of the
same bytes per domain, content type application/json, ACL public-read,
aborting at the first failure. -/
def uploadMetas (env : Env) (content : String) : List String → List Effect × Option WorkError
  | [] => ([], none)
  | dom :: rest =>
      let key := "domains/" ++ dom ++ "/meta.json"
      if env.uploadOk key then
        let r := uploadMetas env content rest
        (Effect.upload key content "application/json" "public-read" :: r.1, r.2)
      else ([Effect.upload key content "application/json" "public-read"],
            some WorkError.metaUpload)

/-- The durable state produced by a successful commit transaction
(deployer.go:302-326): the deployment row moved to deployed (deployed_at
set), active_deployment_id pointed at it, and, when max_deploys_kept is
positive, old deployed rows soft-deleted. -/
def commitDb (env : Env) : DbState :=
  let s1 := applyUpdateState env.db env.depl.id DeployState.deployed env.depl.errorMessage
  let s2 := { s1 with activeDeploymentID := some env.depl.id }
  if env.proj.maxDeploysKept > 0 then deleteExceptLastN s2 env.proj.maxDeploysKept else s2

/-- The commit transaction of deployer.go:302-326: begin, update the
deployment state to deployed, update active_deployment_id, soft-delete
old deployments when max_deploys_kept is positive, commit; the deferred
rollback undoes everything when any step fails. -/
def workCommit (env : Env) (tr : List Effect) : WorkResult :=
  if !env.beginOk then ⟨.err .txBeginErr, tr, env.db⟩
  else if !env.updateStateTxOk then
    ⟨.err .txUpdateState, tr ++ [Effect.txBegin, Effect.txRollback], env.db⟩
  else if !env.updateProjOk then
    ⟨.err .txUpdateProj, tr ++ [Effect.txBegin, Effect.txRollback], env.db⟩
  else if env.proj.maxDeploysKept > 0 && !env.deleteOk then
    ⟨.err .txDelete, tr ++ [Effect.txBegin, Effect.txRollback], env.db⟩
  else if !env.commitOk then
    ⟨.err .txCommitErr, tr ++ [Effect.txBegin, Effect.txRollback], env.db⟩
  else ⟨.ok, tr ++ [Effect.txBegin, Effect.txCommit], commitDb env⟩

/-- The tail of the worker shared by both skip_webroot_upload values
(deployer.go:258-326): marshal and upload the per-domain metadata,
publish the invalidation unless skipped, then run the commit
transaction.  The metadata marshal of the source cannot fail (the
struct is statically marshalable), so no failure knob exists for it. -/
def workTail (env : Env) (d : DeployJobData) (pid : String) (tr : List Effect) : WorkResult :=
  if !env.domainNamesOk then ⟨.err .domainNamesErr, tr, env.db⟩
  else
    let meta := metaJson pid env.proj
    let m := uploadMetas env meta env.domainNames
    let tr1 := tr ++ m.1
    match m.2 with
    | some e => ⟨.err e, tr1, env.db⟩
    | none =>
        if !d.skipInvalidation then
          if !env.newMessageOk then ⟨.err .newMessage, tr1, env.db⟩
          else if !env.publishOk then ⟨.err .publish, tr1, env.db⟩
          else workCommit env (tr1 ++ [Effect.publish "edges" "v1.invalidation" env.domainNames])
        else workCommit env tr1

/-- The body of Work after the project lock is acquired
(deployer.go:111-326), excluding the deferred unlock: the state
precondition checks, the bundle download and upload loop with its
three-way select (completion, first error, timeout), the jsenv upload,
and the shared tail. -/
def workLocked (env : Env) (d : DeployJobData) : WorkResult :=
  if env.depl.state == DeployState.uploaded ||
      env.depl.state == DeployState.pendingUpload then
    ⟨.err .unexpectedState, [], env.db⟩
  else
    let pid := env.depl.prefixID
    let webroot := "deployments/" ++ pid ++ "/webroot"
    if d.skipWebrootUpload then workTail env d pid []
    else if env.depl.state == DeployState.deployed then
      ⟨.err .unexpectedState, [], env.db⟩
    else
      let bundlePath := bundlePathFor env d pid
      if !env.tempFileOk then ⟨.err .tempFile, [], env.db⟩
      else if !env.downloadOk then ⟨.err .download, [Effect.download bundlePath], env.db⟩
      else if !env.gzipOk then ⟨.err .gzip, [Effect.download bundlePath], env.db⟩
      else
        let lr := runLoop env webroot env.entries
        let tr0 := Effect.download bundlePath :: lr.1
        if env.timeout then
          let db' :=
            if env.updateStateDbOk then
              applyUpdateState env.db env.depl.id DeployState.deployFailed
                (some "Timed out due to too many files")
            else env.db
          ⟨.err .timeout, tr0, db'⟩
        else
          match lr.2 with
          | some e => ⟨.err e, tr0, env.db⟩
          | none =>
              match unmarshalStringMap env.depl.jsEnvVars with
              | none => ⟨.err .jsenvUnmarshal, tr0, env.db⟩
              | some _ =>
                  let jsenvKey := webroot ++ "/jsenv.js"
                  let up := Effect.upload jsenvKey (jsenvContent env.depl.jsEnvVars.render)
                    "application/javascript" "public-read"
                  if !env.uploadOk jsenvKey then ⟨.err .jsenvUpload, tr0 ++ [up], env.db⟩
                  else workTail env d pid (tr0 ++ [up])

/-- The worker entry point Work (deployer.go:75-351) from the parsed
job onward: load the deployment and project, acquire the project
advisory lock (returning ProjectLocked when not acquired), run the
locked body, and release the lock on every exit path after
acquisition.  The post-commit analytics of deployer.go:328-348 are
swallowed by the source and touch nothing the model tracks. -/
def Work (env : Env) (d : DeployJobData) : WorkResult :=
  if !env.dbOk then ⟨.err .dbConn, [], env.db⟩
  else if !env.findDeplOk then ⟨.err .findDepl, [], env.db⟩
  else if !env.findProjOk then ⟨.err .findProj, [], env.db⟩
  else if env.lockErr then ⟨.err .lockFailed, [], env.db⟩
  else if !env.lockAcquired then ⟨.err .projectLocked, [], env.db⟩
  else
    let body := workLocked env d
    ⟨body.result, body.trace ++ [Effect.unlock], body.db⟩

/-! Concrete data used to instantiate the universally quantified
theorems below on executable inputs. -/

/-- A concrete deployment row. -/
def baseDepl : Deployment :=
  { id := 1, projectID := 1, userID := 1, prefixName := "p",
    state := DeployState.pendingDeploy,
    jsEnvVars := Json.obj [("FOO", Json.str "bar")], rawBundleID := none,
    errorMessage := none, version := 1 }

/-- A concrete project row. -/
def baseProj : Project :=
  { id := 1, name := "foo", watermark := false, forceHTTPS := false,
    basicAuthUsername := none, encryptedBasicAuthPassword := none,
    maxDeploysKept := 0, activeDeploymentID := none }

/-- A concrete durable database state holding the deployment row. -/
def baseDb : DbState :=
  { rows := [{ id := 1, state := DeployState.pendingDeploy, errorMessage := none,
               deployedAt := false, deleted := false }],
    activeDeploymentID := none }

/-- A concrete environment in which every external call succeeds and
the bundle holds a small site. -/
def baseEnv : Env :=
  { dbOk := true, findDeplOk := true, depl := baseDepl, findProjOk := true,
    proj := baseProj, lockErr := false, lockAcquired := true, tempFileOk := true,
    rawBundlePath := none, downloadOk := true, gzipOk := true,
    entries := [{ name := "index.html", isDir := false, size := 28,
                  content := "<html><body>hi</body></html>" },
                { name := "css/app.css", isDir := false, size := 0, content := "" }],
    tarErr := false, uploadOk := fun _ => true,
    watermarkResult := fun s => some (s ++ "<!-- wm -->"),
    timeout := false, updateStateDbOk := true, domainNamesOk := true,
    domainNames := ["foo.rise.cloud"], newMessageOk := true, publishOk := true,
    beginOk := true, updateStateTxOk := true, updateProjOk := true,
    deleteOk := true, commitOk := true, db := baseDb }

/-- The standard job for the concrete environment. -/
def baseJob : DeployJobData :=
  { deploymentID := 1, skipWebrootUpload := false, useRawBundle := false,
    skipInvalidation := false }

/-! Helper lemmas about the components of the worker. -/

/-- Every effect the upload loop emits is an object upload. -/
theorem runLoop_uploads (env : Env) (w : String) (es : List TarEntry) :
    ∀ e ∈ (runLoop env w es).1, e.isUpload = true := by
  induction es with
  | nil =>
      intro e he
      simp [runLoop] at he
  | cons x xs ih =>
      intro e he
      rw [runLoop] at he
      cases hp : processEntry env w x <;> rw [hp] at he
      case skipDir => exact ih e he
      case skipInvalid => exact ih e he
      case skipWatermark => exact ih e he
      case uploadedOk k c t =>
        rcases List.mem_cons.mp he with h | h
        · subst h; rfl
        · exact ih e h
      case uploadFailed k c t =>
        rcases List.mem_cons.mp he with h | h
        · subst h; rfl
        · simp at h

/-- Every effect the metadata loop emits is an object upload. -/
theorem uploadMetas_uploads (env : Env) (c : String) (doms : List String) :
    ∀ e ∈ (uploadMetas env c doms).1, e.isUpload = true := by
  induction doms with
  | nil =>
      intro e he
      simp [uploadMetas] at he
  | cons x xs ih =>
      intro e he
      rw [uploadMetas] at he
      by_cases hu : env.uploadOk ("domains/" ++ x ++ "/meta.json") = true
      · rw [if_pos hu] at he
        rcases List.mem_cons.mp he with h | h
        · subst h; rfl
        · exact ih e h
      · rw [if_neg hu] at he
        rcases List.mem_cons.mp he with h | h
        · subst h; rfl
        · simp at h

/-- An upload effect is not a publish effect. -/
theorem isUpload_not_isPublish (e : Effect) (h : e.isUpload = true) :
    e.isPublish = false := by
  cases e <;> simp_all [Effect.isUpload, Effect.isPublish]

/-- The commit transaction leaves the database unchanged unless it
returns ok, in which case the database is the committed state and the
trace extends the given one with begin and commit. -/
theorem workCommit_cases (env : Env) (tr : List Effect) :
    ((workCommit env tr).result ≠ Outcome.ok ∧ (workCommit env tr).db = env.db) ∨
    ((workCommit env tr).result = Outcome.ok ∧ (workCommit env tr).db = commitDb env ∧
      (workCommit env tr).trace = tr ++ [Effect.txBegin, Effect.txCommit]) := by
  unfold workCommit
  split
  · exact Or.inl (by simp)
  · split
    · exact Or.inl (by simp)
    · split
      · exact Or.inl (by simp)
      · split
        · exact Or.inl (by simp)
        · split
          · exact Or.inl (by simp)
          · exact Or.inr (by simp)

/-- The trace of the commit transaction extends the trace it is given. -/
theorem workCommit_trace (env : Env) (tr : List Effect) :
    ∃ s, (workCommit env tr).trace = tr ++ s := by
  unfold workCommit
  split
  · exact ⟨[], by simp⟩
  · split
    · exact ⟨_, rfl⟩
    · split
      · exact ⟨_, rfl⟩
      · split
        · exact ⟨_, rfl⟩
        · split
          · exact ⟨_, rfl⟩
          · exact ⟨_, rfl⟩

/-- The commit transaction never returns the timeout error. -/
theorem workCommit_ne_timeout (env : Env) (tr : List Effect) :
    (workCommit env tr).result ≠ Outcome.err WorkError.timeout := by
  unfold workCommit
  split
  · simp
  · split
    · simp
    · split
      · simp
      · split
        · simp
        · split
          · simp
          · simp

/-- The only error the metadata loop reports is the metadata upload
error. -/
theorem uploadMetas_err (env : Env) (c : String) (doms : List String) (e : WorkError)
    (h : (uploadMetas env c doms).2 = some e) : e = WorkError.metaUpload := by
  induction doms with
  | nil => simp [uploadMetas] at h
  | cons x xs ih =>
      rw [uploadMetas] at h
      by_cases hu : env.uploadOk ("domains/" ++ x ++ "/meta.json") = true
      · rw [if_pos hu] at h
        exact ih h
      · rw [if_neg hu] at h
        simp at h
        exact h.symm

/-- The only errors the upload loop reports are the tar read error and
the upload error. -/
theorem runLoop_err (env : Env) (w : String) (es : List TarEntry) (e : WorkError)
    (h : (runLoop env w es).2 = some e) :
    e = WorkError.tarNext ∨ e = WorkError.uploadErr := by
  induction es with
  | nil =>
      rw [runLoop] at h
      by_cases ht : env.tarErr = true
      · rw [if_pos ht] at h
        simp at h
        exact Or.inl h.symm
      · rw [if_neg ht] at h
        simp at h
  | cons x xs ih =>
      rw [runLoop] at h
      cases hp : processEntry env w x <;> rw [hp] at h
      case skipDir => exact ih h
      case skipInvalid => exact ih h
      case skipWatermark => exact ih h
      case uploadedOk k c t => exact ih h
      case uploadFailed k c t =>
        simp at h
        exact Or.inr h.symm

/-- The worker tail leaves the database unchanged unless it returns ok,
in which case the database is the committed state; it never reports the
timeout error. -/
theorem workTail_cases (env : Env) (d : DeployJobData) (pid : String) (tr : List Effect) :
    ((workTail env d pid tr).result ≠ Outcome.ok ∧
      (workTail env d pid tr).result ≠ Outcome.err WorkError.timeout ∧
      (workTail env d pid tr).db = env.db) ∨
    ((workTail env d pid tr).result = Outcome.ok ∧
      (workTail env d pid tr).db = commitDb env) := by
  unfold workTail
  split
  · exact Or.inl (by simp)
  · cases hm : (uploadMetas env (metaJson pid env.proj) env.domainNames).2 with
    | some e =>
        have he := uploadMetas_err env (metaJson pid env.proj) env.domainNames e hm
        subst he
        simp [hm]
    | none =>
        simp only [hm]
        split
        · split
          · exact Or.inl (by simp)
          · split
            · exact Or.inl (by simp)
            · rcases workCommit_cases env
                (tr ++ (uploadMetas env (metaJson pid env.proj) env.domainNames).1 ++
                  [Effect.publish "edges" "v1.invalidation" env.domainNames]) with
                ⟨h1, h2⟩ | ⟨h1, h2, h3⟩
              · exact Or.inl ⟨h1, workCommit_ne_timeout env _, h2⟩
              · exact Or.inr ⟨h1, h2⟩
        · rcases workCommit_cases env
            (tr ++ (uploadMetas env (metaJson pid env.proj) env.domainNames).1) with
            ⟨h1, h2⟩ | ⟨h1, h2, h3⟩
          · exact Or.inl ⟨h1, workCommit_ne_timeout env _, h2⟩
          · exact Or.inr ⟨h1, h2⟩

/-- The trace of the worker tail extends the trace it is given. -/
theorem workTail_trace (env : Env) (d : DeployJobData) (pid : String) (tr : List Effect) :
    ∃ s, (workTail env d pid tr).trace = tr ++ s := by
  unfold workTail
  split
  · exact ⟨[], by simp⟩
  · cases hm : (uploadMetas env (metaJson pid env.proj) env.domainNames).2 with
    | some e => simp [hm]
    | none =>
        simp only [hm]
        split
        · split
          · exact ⟨_, rfl⟩
          · split
            · exact ⟨_, rfl⟩
            · obtain ⟨s, hs⟩ := workCommit_trace env
                (tr ++ (uploadMetas env (metaJson pid env.proj) env.domainNames).1 ++
                  [Effect.publish "edges" "v1.invalidation" env.domainNames])
              exact ⟨(uploadMetas env (metaJson pid env.proj) env.domainNames).1 ++
                (Effect.publish "edges" "v1.invalidation" env.domainNames :: s),
                by rw [hs]; simp⟩
        · obtain ⟨s, hs⟩ := workCommit_trace env
            (tr ++ (uploadMetas env (metaJson pid env.proj) env.domainNames).1)
          exact ⟨(uploadMetas env (metaJson pid env.proj) env.domainNames).1 ++ s,
            by rw [hs]; simp⟩

/-- When the invalidation is not skipped and the worker tail returns
ok, its trace is the given one, then uploads only, then exactly the
invalidation publish, then transaction begin and commit. -/
theorem workTail_shape (env : Env) (d : DeployJobData) (pid : String) (tr : List Effect)
    (hinv : d.skipInvalidation = false) :
    (workTail env d pid tr).result ≠ Outcome.ok ∨
    ∃ m, (∀ e ∈ m, e.isUpload = true) ∧
      (workTail env d pid tr).trace =
        tr ++ m ++ [Effect.publish "edges" "v1.invalidation" env.domainNames,
                    Effect.txBegin, Effect.txCommit] := by
  unfold workTail
  split
  · exact Or.inl (by simp)
  · cases hm : (uploadMetas env (metaJson pid env.proj) env.domainNames).2 with
    | some e => simp [hm]
    | none =>
        simp only [hm, hinv, Bool.not_false, if_true]
        split
        · exact Or.inl (by simp)
        · split
          · exact Or.inl (by simp)
          · rcases workCommit_cases env
              (tr ++ (uploadMetas env (metaJson pid env.proj) env.domainNames).1 ++
                [Effect.publish "edges" "v1.invalidation" env.domainNames]) with
              ⟨h1, h2⟩ | ⟨h1, h2, h3⟩
            · exact Or.inl h1
            · refine Or.inr ⟨(uploadMetas env (metaJson pid env.proj) env.domainNames).1,
                uploadMetas_uploads env _ _, ?_⟩
              rw [h3]
              simp

/-- The locked worker body leaves the database unchanged unless it
returns ok (committed state) or the timeout error (deployment marked
deploy_failed when the state update succeeds). -/
theorem workLocked_cases (env : Env) (d : DeployJobData) :
    ((workLocked env d).result ≠ Outcome.ok ∧
      (workLocked env d).result ≠ Outcome.err WorkError.timeout ∧
      (workLocked env d).db = env.db) ∨
    ((workLocked env d).result = Outcome.ok ∧ (workLocked env d).db = commitDb env) ∨
    ((workLocked env d).result = Outcome.err WorkError.timeout ∧
      ((workLocked env d).db =
          applyUpdateState env.db env.depl.id DeployState.deployFailed
            (some "Timed out due to too many files") ∨
        (workLocked env d).db = env.db)) := by
  unfold workLocked
  split
  · exact Or.inl (by simp)
  · split
    · rcases workTail_cases env d env.depl.prefixID [] with ⟨h1, h2, h3⟩ | ⟨h1, h2⟩
      · exact Or.inl ⟨h1, h2, h3⟩
      · exact Or.inr (Or.inl ⟨h1, h2⟩)
    · split
      · exact Or.inl (by simp)
      · split
        · exact Or.inl (by simp)
        · split
          · exact Or.inl (by simp)
          · split
            · exact Or.inl (by simp)
            · split
              · refine Or.inr (Or.inr ⟨rfl, ?_⟩)
                split
                · exact Or.inl rfl
                · exact Or.inr rfl
              · cases hl : (runLoop env
                    ("deployments/" ++ env.depl.prefixID ++ "/webroot") env.entries).2 with
                | some e =>
                    simp only [hl]
                    rcases runLoop_err env _ env.entries e hl with he | he <;> subst he <;>
                      exact Or.inl (by simp)
                | none =>
                    simp only [hl]
                    cases hj : unmarshalStringMap env.depl.jsEnvVars with
                    | none => simp only [hj]; exact Or.inl (by simp)
                    | some m =>
                        simp only [hj]
                        split
                        · exact Or.inl (by simp)
                        · rcases workTail_cases env d env.depl.prefixID _ with
                            ⟨h1, h2, h3⟩ | ⟨h1, h2⟩
                          · exact Or.inl ⟨h1, h2, h3⟩
                          · exact Or.inr (Or.inl ⟨h1, h2⟩)

/-- The worker leaves the database unchanged unless it returns ok
(committed state, including the soft deletion) or the timeout error
(deployment marked deploy_failed when the direct state update
succeeds). -/
theorem work_cases (env : Env) (d : DeployJobData) :
    ((Work env d).result ≠ Outcome.ok ∧
      (Work env d).result ≠ Outcome.err WorkError.timeout ∧
      (Work env d).db = env.db) ∨
    ((Work env d).result = Outcome.ok ∧ (Work env d).db = commitDb env) ∨
    ((Work env d).result = Outcome.err WorkError.timeout ∧
      ((Work env d).db =
          applyUpdateState env.db env.depl.id DeployState.deployFailed
            (some "Timed out due to too many files") ∨
        (Work env d).db = env.db)) := by
  unfold Work
  split
  · exact Or.inl (by simp)
  · split
    · exact Or.inl (by simp)
    · split
      · exact Or.inl (by simp)
      · split
        · exact Or.inl (by simp)
        · split
          · exact Or.inl (by simp)
          · rcases workLocked_cases env d with ⟨h1, h2, h3⟩ | ⟨h1, h2⟩ | ⟨h1, h2⟩
            · exact Or.inl ⟨h1, h2, h3⟩
            · exact Or.inr (Or.inl ⟨h1, h2⟩)
            · exact Or.inr (Or.inr ⟨h1, h2⟩)

set_option maxHeartbeats 2000000 in
/-- When the invalidation is not skipped and the locked body returns
ok, the body trace is a publish-free prefix, then exactly the
invalidation publish, then transaction begin and commit. -/
theorem workLocked_pub_shape (env : Env) (d : DeployJobData)
    (hinv : d.skipInvalidation = false) :
    (workLocked env d).result ≠ Outcome.ok ∨
    ∃ t, (∀ e ∈ t, e.isPublish = false) ∧
      (workLocked env d).trace =
        t ++ [Effect.publish "edges" "v1.invalidation" env.domainNames,
              Effect.txBegin, Effect.txCommit] := by
  unfold workLocked
  split
  · exact Or.inl fun h => by cases h
  · split
    · rcases workTail_shape env d env.depl.prefixID [] hinv with h | ⟨m, hm, ht⟩
      · exact Or.inl h
      · refine Or.inr ⟨m, fun e he => isUpload_not_isPublish e (hm e he), ?_⟩
        rw [ht]
        simp
    · split
      · exact Or.inl fun h => by cases h
      · split
        · exact Or.inl fun h => by cases h
        · split
          · exact Or.inl fun h => by cases h
          · split
            · exact Or.inl fun h => by cases h
            · split
              · exact Or.inl fun h => by cases h
              · cases hl : (runLoop env
                    ("deployments/" ++ env.depl.prefixID ++ "/webroot") env.entries).2 with
                | some e => simp only [hl]; exact Or.inl fun h => by cases h
                | none =>
                    simp only [hl]
                    cases hj : unmarshalStringMap env.depl.jsEnvVars with
                    | none => simp only [hj]; exact Or.inl fun h => by cases h
                    | some m0 =>
                        simp only [hj]
                        split
                        · exact Or.inl fun h => by cases h
                        · rcases workTail_shape env d env.depl.prefixID _ hinv with
                            h | ⟨m, hm, ht⟩
                          · exact Or.inl h
                          · refine Or.inr ⟨_, ?_, ht⟩
                            intro e he
                            rcases List.mem_append.mp he with h | h
                            · rcases List.mem_append.mp h with h' | h'
                              · rcases List.mem_cons.mp h' with h'' | h''
                                · subst h''; rfl
                                · exact isUpload_not_isPublish e
                                    (runLoop_uploads env _ env.entries e h'')
                              · rcases List.mem_cons.mp h' with h'' | h''
                                · subst h''; rfl
                                · simp at h''
                            · exact isUpload_not_isPublish e (hm e h)

/-- The commit transaction never returns the unexpected state error. -/
theorem workCommit_ne_unexpected (env : Env) (tr : List Effect) :
    (workCommit env tr).result ≠ Outcome.err WorkError.unexpectedState := by
  unfold workCommit
  split
  · simp
  · split
    · simp
    · split
      · simp
      · split
        · simp
        · split
          · simp
          · simp

/-- The worker tail never returns the unexpected state error. -/
theorem workTail_ne_unexpected (env : Env) (d : DeployJobData) (pid : String)
    (tr : List Effect) :
    (workTail env d pid tr).result ≠ Outcome.err WorkError.unexpectedState := by
  unfold workTail
  split
  · simp
  · cases hm : (uploadMetas env (metaJson pid env.proj) env.domainNames).2 with
    | some e =>
        have he := uploadMetas_err env (metaJson pid env.proj) env.domainNames e hm
        subst he
        simp [hm]
    | none =>
        simp only [hm]
        split
        · split
          · simp
          · split
            · simp
            · exact workCommit_ne_unexpected env _
        · exact workCommit_ne_unexpected env _

/-- When the worker tail returns ok its trace ends with transaction
begin and commit. -/
theorem workTail_commit_suffix (env : Env) (d : DeployJobData) (pid : String)
    (tr : List Effect) :
    (workTail env d pid tr).result ≠ Outcome.ok ∨
    ∃ t, (workTail env d pid tr).trace = t ++ [Effect.txBegin, Effect.txCommit] := by
  unfold workTail
  split
  · exact Or.inl (by simp)
  · cases hm : (uploadMetas env (metaJson pid env.proj) env.domainNames).2 with
    | some e => simp [hm]
    | none =>
        simp only [hm]
        split
        · split
          · exact Or.inl (by simp)
          · split
            · exact Or.inl (by simp)
            · rcases workCommit_cases env
                (tr ++ (uploadMetas env (metaJson pid env.proj) env.domainNames).1 ++
                  [Effect.publish "edges" "v1.invalidation" env.domainNames]) with
                ⟨h1, h2⟩ | ⟨h1, h2, h3⟩
              · exact Or.inl h1
              · exact Or.inr ⟨_, h3⟩
        · rcases workCommit_cases env
            (tr ++ (uploadMetas env (metaJson pid env.proj) env.domainNames).1) with
            ⟨h1, h2⟩ | ⟨h1, h2, h3⟩
          · exact Or.inl h1
          · exact Or.inr ⟨_, h3⟩

set_option maxHeartbeats 2000000 in
/-- When the locked body returns ok its trace ends with transaction
begin and commit. -/
theorem workLocked_commit_suffix (env : Env) (d : DeployJobData) :
    (workLocked env d).result ≠ Outcome.ok ∨
    ∃ t, (workLocked env d).trace = t ++ [Effect.txBegin, Effect.txCommit] := by
  unfold workLocked
  split
  · exact Or.inl fun h => by cases h
  · split
    · exact workTail_commit_suffix env d env.depl.prefixID []
    · split
      · exact Or.inl fun h => by cases h
      · split
        · exact Or.inl fun h => by cases h
        · split
          · exact Or.inl fun h => by cases h
          · split
            · exact Or.inl fun h => by cases h
            · split
              · exact Or.inl fun h => by cases h
              · cases hl : (runLoop env
                    ("deployments/" ++ env.depl.prefixID ++ "/webroot") env.entries).2 with
                | some e => simp only [hl]; exact Or.inl fun h => by cases h
                | none =>
                    simp only [hl]
                    cases hj : unmarshalStringMap env.depl.jsEnvVars with
                    | none => simp only [hj]; exact Or.inl fun h => by cases h
                    | some m0 =>
                        simp only [hj]
                        split
                        · exact Or.inl fun h => by cases h
                        · exact workTail_commit_suffix env d env.depl.prefixID _

/-- A row of the state written by the update helper carrying the id
that was updated holds the new state and error message, and
deployed_at is set when the new state is deployed. -/
theorem applyUpdateState_mem (s : DbState) (id0 : Nat) (st : DeployState)
    (em : Option String) :
    ∀ r ∈ (applyUpdateState s id0 st em).rows, r.id = id0 →
      r.state = st ∧ r.errorMessage = em ∧
      (st = DeployState.deployed → r.deployedAt = true) := by
  intro r hr hid
  unfold applyUpdateState at hr
  simp only [List.mem_map] at hr
  obtain ⟨r0, hr0, heq⟩ := hr
  by_cases h : r0.id = id0
  · rw [if_pos h] at heq
    subst heq
    refine ⟨rfl, rfl, ?_⟩
    intro hst
    subst hst
    simp
  · rw [if_neg h] at heq
    subst heq
    exact absurd hid h

/-- Soft deletion only flips the deleted flag: every row of the result
comes from a source row with the same id, state, error message and
deployed_at flag. -/
theorem deleteExceptLastN_mem (s : DbState) (n : Nat) :
    ∀ r ∈ (deleteExceptLastN s n).rows, ∃ r0 ∈ s.rows,
      r.id = r0.id ∧ r.state = r0.state ∧ r.errorMessage = r0.errorMessage ∧
      r.deployedAt = r0.deployedAt := by
  intro r hr
  unfold deleteExceptLastN at hr
  simp only [List.mem_map] at hr
  obtain ⟨r0, hr0, heq⟩ := hr
  refine ⟨r0, hr0, ?_⟩
  split at heq
  · subst heq
    exact ⟨rfl, rfl, rfl, rfl⟩
  · subst heq
    exact ⟨rfl, rfl, rfl, rfl⟩

/-- The committed state points the active deployment at the worker
deployment. -/
theorem commitDb_active (env : Env) :
    (commitDb env).activeDeploymentID = some env.depl.id := by
  unfold commitDb
  split
  · unfold deleteExceptLastN
    rfl
  · rfl

/-- Every row of the committed state carrying the worker deployment id
is deployed with deployed_at set. -/
theorem commitDb_rows (env : Env) :
    ∀ r ∈ (commitDb env).rows, r.id = env.depl.id →
      r.state = DeployState.deployed ∧ r.deployedAt = true := by
  intro r hr hid
  have base : ∀ r' ∈ (applyUpdateState env.db env.depl.id DeployState.deployed
      env.depl.errorMessage).rows, r'.id = env.depl.id →
      r'.state = DeployState.deployed ∧ r'.deployedAt = true := by
    intro r' hr' hid'
    obtain ⟨h1, h2, h3⟩ := applyUpdateState_mem env.db env.depl.id DeployState.deployed
      env.depl.errorMessage r' hr' hid'
    exact ⟨h1, h3 rfl⟩
  unfold commitDb at hr
  split at hr
  · obtain ⟨r0, hr0, hid0, hst0, hem0, hda0⟩ := deleteExceptLastN_mem _ _ r hr
    have := base r0 hr0 (hid0 ▸ hid)
    exact ⟨hst0.trans this.1, hda0.trans this.2⟩
  · exact base r hr hid

/-- When the webroot upload is not skipped and the locked body returns
ok, the body trace contains the jsenv upload with the source template
content, content type and ACL. -/
theorem workLocked_jsenv (env : Env) (d : DeployJobData)
    (hw : d.skipWebrootUpload = false) :
    (workLocked env d).result ≠ Outcome.ok ∨
    Effect.upload ("deployments/" ++ env.depl.prefixID ++ "/webroot" ++ "/jsenv.js")
      (jsenvContent (Json.render env.depl.jsEnvVars)) "application/javascript" "public-read"
      ∈ (workLocked env d).trace := by
  unfold workLocked
  split
  · exact Or.inl (by simp)
  · split
    · rename_i hsk
      rw [hw] at hsk
      simp at hsk
    · split
      · exact Or.inl (by simp)
      · split
        · exact Or.inl (by simp)
        · split
          · exact Or.inl (by simp)
          · split
            · exact Or.inl (by simp)
            · split
              · exact Or.inl (by simp)
              · cases hl : (runLoop env
                    ("deployments/" ++ env.depl.prefixID ++ "/webroot") env.entries).2 with
                | some e => simp only [hl]; exact Or.inl (by simp)
                | none =>
                    simp only [hl]
                    cases hj : unmarshalStringMap env.depl.jsEnvVars with
                    | none => simp only [hj]; exact Or.inl (by simp)
                    | some m0 =>
                        simp only [hj]
                        split
                        · exact Or.inl (by simp)
                        · refine Or.inr ?_
                          obtain ⟨s, hs⟩ := workTail_trace env d env.depl.prefixID _
                          rw [hs]
                          simp

/-- When the worker returns nil its trace ends with transaction begin,
transaction commit and the lock release, in that order. -/
theorem work_commit_suffix (env : Env) (d : DeployJobData) :
    (Work env d).result ≠ Outcome.ok ∨
    ∃ t, (Work env d).trace = t ++ [Effect.txBegin, Effect.txCommit, Effect.unlock] := by
  unfold Work
  split
  · exact Or.inl (by simp)
  · split
    · exact Or.inl (by simp)
    · split
      · exact Or.inl (by simp)
      · split
        · exact Or.inl (by simp)
        · split
          · exact Or.inl (by simp)
          · rcases workLocked_commit_suffix env d with h | ⟨t, ht⟩
            · exact Or.inl h
            · refine Or.inr ⟨t, ?_⟩
              show (workLocked env d).trace ++ [Effect.unlock] =
                t ++ [Effect.txBegin, Effect.txCommit, Effect.unlock]
              rw [ht]
              simp

/-! Claim theorems, their concrete environments and witnesses. -/

/-- The environment in which the commit step of the transaction
fails. -/
def envTxFail : Env := { baseEnv with commitOk := false }

/-- C1: for every job that Work completes successfully the deployment
row is deployed with deployed_at set, active_deployment_id is the
deployment id, and the final database is exactly the committed
transaction state, which also applies the soft deletion of old
deployed rows when max_deploys_kept is positive; the trace shows a
single transaction ending in commit; when any step inside the
transaction errors the database is left exactly as it was. -/
theorem c1_commit_atomicity (env : Env) (d : DeployJobData) :
    ((Work env d).result = Outcome.ok →
      (Work env d).db = commitDb env ∧
      (Work env d).db.activeDeploymentID = some env.depl.id ∧
      (∀ r ∈ (Work env d).db.rows, r.id = env.depl.id →
        r.state = DeployState.deployed ∧ r.deployedAt = true) ∧
      ∃ t, (Work env d).trace = t ++ [Effect.txBegin, Effect.txCommit, Effect.unlock]) ∧
    (∀ e, (Work env d).result = Outcome.err e →
      (e = WorkError.txUpdateState ∨ e = WorkError.txUpdateProj ∨
        e = WorkError.txDelete ∨ e = WorkError.txCommitErr) →
      (Work env d).db = env.db) := by
  constructor
  · intro hok
    rcases work_cases env d with ⟨h1, _, _⟩ | ⟨_, h2⟩ | ⟨h1, _⟩
    · exact absurd hok h1
    · rcases work_commit_suffix env d with h | ⟨t, ht⟩
      · exact absurd hok h
      · exact ⟨h2, by rw [h2]; exact commitDb_active env,
          by rw [h2]; exact commitDb_rows env, ⟨t, ht⟩⟩
    · exact Outcome.noConfusion (hok.symm.trans h1)
  · intro e hres he
    rcases work_cases env d with ⟨_, _, h3⟩ | ⟨h1, _⟩ | ⟨h1, _⟩
    · exact h3
    · exact Outcome.noConfusion (h1.symm.trans hres)
    · have h' := Outcome.err.inj (hres.symm.trans h1)
      rcases he with he | he | he | he <;> rw [he] at h' <;> exact WorkError.noConfusion h'

/-- Witness for C1 at the concrete environments: the successful run
commits, and the run whose commit fails leaves the database
untouched. -/
theorem c1_commit_atomicity_witness :
    (Work baseEnv baseJob).db.activeDeploymentID = some baseEnv.depl.id ∧
    (Work envTxFail baseJob).db = envTxFail.db :=
  ⟨((c1_commit_atomicity baseEnv baseJob).1 (by decide)).2.1,
   (c1_commit_atomicity envTxFail baseJob).2 WorkError.txCommitErr (by decide)
     (Or.inr (Or.inr (Or.inr rfl)))⟩

/-- C2: after the lock is acquired, with skip_webroot_upload false the
worker rejects states uploaded, pending_upload and deployed with the
unexpected state error, uploading nothing and changing no state; with
skip_webroot_upload true it rejects only uploaded and pending_upload,
and a deployment already deployed is accepted. -/
theorem c2_state_precondition (env : Env) (d : DeployJobData)
    (h1 : env.dbOk = true) (h2 : env.findDeplOk = true) (h3 : env.findProjOk = true)
    (h4 : env.lockErr = false) (h5 : env.lockAcquired = true) :
    (d.skipWebrootUpload = false →
      (env.depl.state = DeployState.uploaded ∨ env.depl.state = DeployState.pendingUpload ∨
        env.depl.state = DeployState.deployed) →
      (Work env d).result = Outcome.err WorkError.unexpectedState ∧
      (∀ e ∈ (Work env d).trace, e.isUpload = false) ∧
      (Work env d).db = env.db) ∧
    (d.skipWebrootUpload = true →
      ((env.depl.state = DeployState.uploaded ∨
          env.depl.state = DeployState.pendingUpload →
        (Work env d).result = Outcome.err WorkError.unexpectedState ∧
        (∀ e ∈ (Work env d).trace, e.isUpload = false) ∧
        (Work env d).db = env.db) ∧
      (env.depl.state = DeployState.deployed →
        (Work env d).result ≠ Outcome.err WorkError.unexpectedState))) := by
  constructor
  · intro hw hst
    unfold Work workLocked
    rcases hst with h | h | h
    · simp [h1, h2, h3, h4, h5, h, Effect.isUpload]
    · simp [h1, h2, h3, h4, h5, h, Effect.isUpload]
    · simp [h1, h2, h3, h4, h5, h, hw, Effect.isUpload]
  · intro hw
    constructor
    · intro hst
      unfold Work workLocked
      rcases hst with h | h
      · simp [h1, h2, h3, h4, h5, h, Effect.isUpload]
      · simp [h1, h2, h3, h4, h5, h, Effect.isUpload]
    · intro hst
      unfold Work workLocked
      simp only [h1, h2, h3, h4, h5, hst, hw, Bool.not_true, Bool.not_false,
        if_false, if_true]
      intro hcon
      exact workTail_ne_unexpected env d env.depl.prefixID [] (by simpa using hcon)

/-- The environment whose deployment is already deployed. -/
def envDeployed : Env :=
  { baseEnv with depl := { baseDepl with state := DeployState.deployed } }

/-- The job that only republishes metadata. -/
def skipJob : DeployJobData := { baseJob with skipWebrootUpload := true }

/-- Witness for C2: the uploaded state is rejected with
skip_webroot_upload false, and the deployed state is accepted with
skip_webroot_upload true. -/
theorem c2_state_precondition_witness :
    (Work { baseEnv with
        depl := { baseDepl with state := DeployState.uploaded } } baseJob).result =
      Outcome.err WorkError.unexpectedState ∧
    (Work envDeployed skipJob).result ≠ Outcome.err WorkError.unexpectedState :=
  ⟨((c2_state_precondition
      { baseEnv with depl := { baseDepl with state := DeployState.uploaded } } baseJob
      rfl rfl rfl rfl rfl).1 rfl (Or.inl rfl)).1,
   ((c2_state_precondition envDeployed skipJob rfl rfl rfl rfl rfl).2 rfl).2 rfl⟩

/-- C4: when the project lock is not acquired Work returns
ProjectLocked with no effect at all (no upload, no publish, no unlock)
and no state change; when it is acquired, the lock release is the last
effect on every exit path. -/
theorem c4_lock_discipline (env : Env) (d : DeployJobData)
    (h1 : env.dbOk = true) (h2 : env.findDeplOk = true) (h3 : env.findProjOk = true)
    (h4 : env.lockErr = false) :
    (env.lockAcquired = false →
      (Work env d).result = Outcome.err WorkError.projectLocked ∧
      (Work env d).trace = [] ∧ (Work env d).db = env.db) ∧
    (env.lockAcquired = true →
      (Work env d).trace.getLast? = some Effect.unlock) := by
  constructor
  · intro h5
    unfold Work
    simp [h1, h2, h3, h4, h5]
  · intro h5
    unfold Work
    simp [h1, h2, h3, h4, h5, List.getLast?_concat]

/-- Witness for C4: the locked environment produces no effects; the
acquired one ends with the unlock. -/
theorem c4_lock_discipline_witness :
    (Work { baseEnv with lockAcquired := false } baseJob).trace = [] ∧
    (Work baseEnv baseJob).trace.getLast? = some Effect.unlock :=
  ⟨((c4_lock_discipline { baseEnv with lockAcquired := false } baseJob
      rfl rfl rfl rfl).1 rfl).2.1,
   (c4_lock_discipline baseEnv baseJob rfl rfl rfl rfl).2 rfl⟩

/-- The environment whose bundle holds an entry that climbs out of the
webroot. -/
def env9 : Env :=
  { baseEnv with
    depl := { baseDepl with id := 9, prefixName := "p9" },
    entries := [{ name := "../evil.html", isDir := false, size := 4, content := "evil" }] }

/-- C9: every character of the dot-dot path component is accepted by
the filename filter, so an entry named ../evil.html survives cleaning
and filtering and is uploaded to the key
deployments/p9-9/webroot/../evil.html, whose lexical resolution leaves
the webroot prefix of the deployment. -/
theorem c9_dotdot_escape :
    validPathElement ".." = true ∧
    pathClean "../evil.html" = "../evil.html" ∧
    validFileName "../evil.html" = true ∧
    (Work env9 baseJob).result = Outcome.ok ∧
    Effect.upload "deployments/p9-9/webroot/../evil.html" "evil" "text/html" "public-read"
      ∈ (Work env9 baseJob).trace ∧
    pathClean "deployments/p9-9/webroot/../evil.html" = "deployments/p9-9/evil.html" := by
  refine ⟨by decide, by decide, by decide, by decide, ?_, by decide⟩
  decide

/-- A member list holding a non-string value fails to decode. -/
theorem unmarshalFields_none (fs : List (String × Json))
    (h : ∃ kv ∈ fs, kv.2.isStr = false) : unmarshalFields fs = none := by
  induction fs with
  | nil => simp at h
  | cons kv fs ih =>
      rw [unmarshalFields]
      obtain ⟨kw, hkw, hbad⟩ := h
      rcases List.mem_cons.mp hkw with he | he
      · subst he
        cases hv : kw.2 <;> cases hr : unmarshalFields fs <;>
          simp [hv, Json.isStr] at hbad ⊢
      · have hr := ih ⟨kw, he, hbad⟩
        rw [hr]
        cases hv : kv.2 <;> simp

/-- When the invalidation is not skipped and the worker returns nil,
the trace is a publish-free prefix, then exactly the invalidation
publish, then transaction begin, commit and the lock release. -/
theorem work_pub_shape (env : Env) (d : DeployJobData)
    (hinv : d.skipInvalidation = false) :
    (Work env d).result ≠ Outcome.ok ∨
    ∃ t, (∀ e ∈ t, e.isPublish = false) ∧
      (Work env d).trace =
        t ++ [Effect.publish "edges" "v1.invalidation" env.domainNames,
              Effect.txBegin, Effect.txCommit, Effect.unlock] := by
  unfold Work
  split
  · exact Or.inl (by simp)
  · split
    · exact Or.inl (by simp)
    · split
      · exact Or.inl (by simp)
      · split
        · exact Or.inl (by simp)
        · split
          · exact Or.inl (by simp)
          · rcases workLocked_pub_shape env d hinv with h | ⟨t, hnp, ht⟩
            · exact Or.inl h
            · refine Or.inr ⟨t, hnp, ?_⟩
              show (workLocked env d).trace ++ [Effect.unlock] = _
              rw [ht]
              simp

/-- The environment whose bus publish fails. -/
def envPubFail : Env := { baseEnv with publishOk := false }

/-- C5: for a job with skip_invalidation false that completes
successfully, exactly one message with the project domains is published
to the edges exchange with routing key v1.invalidation, after every
upload and before the commit transaction opens; when the publish fails
the worker returns the publish error and the database is unchanged. -/
theorem c5_invalidation_order (env : Env) (d : DeployJobData) :
    (d.skipInvalidation = false → (Work env d).result = Outcome.ok →
      ∃ t, (∀ e ∈ t, e.isPublish = false) ∧
        (Work env d).trace =
          t ++ [Effect.publish "edges" "v1.invalidation" env.domainNames,
                Effect.txBegin, Effect.txCommit, Effect.unlock]) ∧
    ((Work env d).result = Outcome.err WorkError.publish →
      (Work env d).db = env.db) := by
  constructor
  · intro hinv hok
    rcases work_pub_shape env d hinv with h | hshape
    · exact absurd hok h
    · exact hshape
  · intro hres
    rcases work_cases env d with ⟨_, _, h3⟩ | ⟨h1, _⟩ | ⟨h1, _⟩
    · exact h3
    · exact Outcome.noConfusion (h1.symm.trans hres)
    · exact WorkError.noConfusion (Outcome.err.inj (hres.symm.trans h1))

/-- Witness for C5: the successful run publishes once in order; the
run whose publish fails leaves the database unchanged. -/
theorem c5_invalidation_order_witness :
    (∃ t, (∀ e ∈ t, e.isPublish = false) ∧
      (Work baseEnv baseJob).trace =
        t ++ [Effect.publish "edges" "v1.invalidation" baseEnv.domainNames,
              Effect.txBegin, Effect.txCommit, Effect.unlock]) ∧
    (Work envPubFail baseJob).db = envPubFail.db :=
  ⟨(c5_invalidation_order baseEnv baseJob).1 rfl (by decide),
   (c5_invalidation_order envPubFail baseJob).2 (by decide)⟩

/-- The environment whose upload phase times out. -/
def envTimeout : Env := { baseEnv with timeout := true }

/-- C3: when the upload phase exceeds the timeout the worker persists
the error message and the deploy_failed state for the deployment,
publishes no invalidation, opens no commit transaction, releases the
lock last, and returns the timeout error. -/
theorem c3_upload_timeout (env : Env) (d : DeployJobData)
    (h1 : env.dbOk = true) (h2 : env.findDeplOk = true) (h3 : env.findProjOk = true)
    (h4 : env.lockErr = false) (h5 : env.lockAcquired = true)
    (hs1 : env.depl.state ≠ DeployState.uploaded)
    (hs2 : env.depl.state ≠ DeployState.pendingUpload)
    (hs3 : env.depl.state ≠ DeployState.deployed)
    (hw : d.skipWebrootUpload = false)
    (h6 : env.tempFileOk = true) (h7 : env.downloadOk = true) (h8 : env.gzipOk = true)
    (ht : env.timeout = true) (h9 : env.updateStateDbOk = true) :
    (Work env d).result = Outcome.err WorkError.timeout ∧
    (Work env d).db =
      applyUpdateState env.db env.depl.id DeployState.deployFailed
        (some "Timed out due to too many files") ∧
    (∀ r ∈ (Work env d).db.rows, r.id = env.depl.id →
      r.state = DeployState.deployFailed ∧
      r.errorMessage = some "Timed out due to too many files") ∧
    (∀ e ∈ (Work env d).trace, e.isPublish = false) ∧
    Effect.txBegin ∉ (Work env d).trace ∧
    (Work env d).trace.getLast? = some Effect.unlock := by
  have hW : Work env d =
      ⟨Outcome.err WorkError.timeout,
        Effect.download (bundlePathFor env d env.depl.prefixID) ::
          (runLoop env ("deployments/" ++ env.depl.prefixID ++ "/webroot") env.entries).1 ++
          [Effect.unlock],
        applyUpdateState env.db env.depl.id DeployState.deployFailed
          (some "Timed out due to too many files")⟩ := by
    unfold Work workLocked
    simp [h1, h2, h3, h4, h5, hs1, hs2, hs3, hw, h6, h7, h8, ht, h9]
  rw [hW]
  refine ⟨rfl, rfl, ?_, ?_, ?_, ?_⟩
  · intro r hr hid
    obtain ⟨ha, hb, _⟩ := applyUpdateState_mem env.db env.depl.id DeployState.deployFailed
      (some "Timed out due to too many files") r hr hid
    exact ⟨ha, hb⟩
  · intro e he
    rcases List.mem_append.mp he with h | h
    · rcases List.mem_cons.mp h with h' | h'
      · subst h'; rfl
      · exact isUpload_not_isPublish e (runLoop_uploads env _ env.entries e h')
    · rcases List.mem_cons.mp h with h' | h'
      · subst h'; rfl
      · simp at h'
  · intro hmem
    rcases List.mem_append.mp hmem with h | h
    · rcases List.mem_cons.mp h with h' | h'
      · exact Effect.noConfusion h'
      · have := runLoop_uploads env _ env.entries _ h'
        simp [Effect.isUpload] at this
    · rcases List.mem_cons.mp h with h' | h'
      · exact Effect.noConfusion h'
      · simp at h'
  · exact List.getLast?_concat _

/-- Witness for C3 at the concrete timed-out environment. -/
theorem c3_upload_timeout_witness :
    (Work envTimeout baseJob).result = Outcome.err WorkError.timeout ∧
    (Work envTimeout baseJob).trace.getLast? = some Effect.unlock :=
  ⟨(c3_upload_timeout envTimeout baseJob rfl rfl rfl rfl rfl (by decide) (by decide)
      (by decide) rfl rfl rfl rfl rfl rfl).1,
   (c3_upload_timeout envTimeout baseJob rfl rfl rfl rfl rfl (by decide) (by decide)
      (by decide) rfl rfl rfl rfl rfl rfl).2.2.2.2.2⟩

/-- The environment whose js_env_vars object holds a number value. -/
def envBadJs : Env :=
  { baseEnv with depl := { baseDepl with jsEnvVars := Json.obj [("a", Json.num 1)] } }

/-- C10: when js_env_vars is a JSON object holding any non-string
value, the worker returns the unmarshal error right after the upload
loop: no jsenv.js upload, no metadata, no publish, no transaction and
no database change. -/
theorem c10_jsenv_unmarshal (env : Env) (d : DeployJobData)
    (fs : List (String × Json))
    (h1 : env.dbOk = true) (h2 : env.findDeplOk = true) (h3 : env.findProjOk = true)
    (h4 : env.lockErr = false) (h5 : env.lockAcquired = true)
    (hs1 : env.depl.state ≠ DeployState.uploaded)
    (hs2 : env.depl.state ≠ DeployState.pendingUpload)
    (hs3 : env.depl.state ≠ DeployState.deployed)
    (hw : d.skipWebrootUpload = false)
    (h6 : env.tempFileOk = true) (h7 : env.downloadOk = true) (h8 : env.gzipOk = true)
    (ht : env.timeout = false)
    (hloop : (runLoop env ("deployments/" ++ env.depl.prefixID ++ "/webroot")
      env.entries).2 = none)
    (hjs : env.depl.jsEnvVars = Json.obj fs)
    (hbad : ∃ kv ∈ fs, kv.2.isStr = false) :
    (Work env d).result = Outcome.err WorkError.jsenvUnmarshal ∧
    (Work env d).db = env.db ∧
    (Work env d).trace =
      Effect.download (bundlePathFor env d env.depl.prefixID) ::
        (runLoop env ("deployments/" ++ env.depl.prefixID ++ "/webroot") env.entries).1 ++
        [Effect.unlock] := by
  have huj : unmarshalStringMap env.depl.jsEnvVars = none := by
    rw [hjs]
    exact unmarshalFields_none fs hbad
  have hW : Work env d =
      ⟨Outcome.err WorkError.jsenvUnmarshal,
        Effect.download (bundlePathFor env d env.depl.prefixID) ::
          (runLoop env ("deployments/" ++ env.depl.prefixID ++ "/webroot") env.entries).1 ++
          [Effect.unlock],
        env.db⟩ := by
    unfold Work workLocked
    simp [h1, h2, h3, h4, h5, hs1, hs2, hs3, hw, h6, h7, h8, ht, hloop, huj]
  rw [hW]
  exact ⟨rfl, rfl, rfl⟩

/-- Witness for C10 at the concrete environment whose object holds the
number one. -/
theorem c10_jsenv_unmarshal_witness :
    (Work envBadJs baseJob).result = Outcome.err WorkError.jsenvUnmarshal ∧
    (Work envBadJs baseJob).db = envBadJs.db :=
  ⟨(c10_jsenv_unmarshal envBadJs baseJob [("a", Json.num 1)] rfl rfl rfl rfl rfl
      (by decide) (by decide) (by decide) rfl rfl rfl rfl rfl rfl rfl
      ⟨("a", Json.num 1), by simp, rfl⟩).1,
   (c10_jsenv_unmarshal envBadJs baseJob [("a", Json.num 1)] rfl rfl rfl rfl rfl
      (by decide) (by decide) (by decide) rfl rfl rfl rfl rfl rfl rfl
      ⟨("a", Json.num 1), by simp, rfl⟩).2.1⟩

/-- Normal form of entry processing for a non-directory entry whose
cleaned name passes the filter: the watermark branch followed by the
upload. -/
theorem processEntry_valid (env : Env) (webroot : String) (e : TarEntry)
    (hdir : e.isDir = false) (hv : validFileName (pathClean e.name) = true) :
    processEntry env webroot e =
      if env.proj.watermark = true ∧
          stripContentTypeParams (mimeTypeByExtension (filepathExt (pathClean e.name))) =
            "text/html" ∧
          e.size ≤ maxFileSizeToWatermark then
        match env.watermarkResult e.content with
        | none => EntryStep.skipWatermark
        | some w =>
            if env.uploadOk (webroot ++ "/" ++ pathClean e.name) then
              EntryStep.uploadedOk (webroot ++ "/" ++ pathClean e.name) w
                (stripContentTypeParams (mimeTypeByExtension (filepathExt (pathClean e.name))))
            else
              EntryStep.uploadFailed (webroot ++ "/" ++ pathClean e.name) w
                (stripContentTypeParams (mimeTypeByExtension (filepathExt (pathClean e.name))))
      else
        if env.uploadOk (webroot ++ "/" ++ pathClean e.name) then
          EntryStep.uploadedOk (webroot ++ "/" ++ pathClean e.name) e.content
            (stripContentTypeParams (mimeTypeByExtension (filepathExt (pathClean e.name))))
        else
          EntryStep.uploadFailed (webroot ++ "/" ++ pathClean e.name) e.content
            (stripContentTypeParams (mimeTypeByExtension (filepathExt (pathClean e.name)))) := by
  unfold processEntry
  simp [hdir, hv]

/-- An entry with an invalid cleaned name is skipped by the filter. -/
theorem processEntry_invalid (env : Env) (webroot : String) (e : TarEntry)
    (hdir : e.isDir = false) (hv : validFileName (pathClean e.name) = false) :
    processEntry env webroot e = EntryStep.skipInvalid := by
  unfold processEntry
  simp [hdir, hv]

/-- The standard non-directory html entry. -/
def entryIndex : TarEntry :=
  { name := "index.html", isDir := false, size := 28,
    content := "<html><body>hi</body></html>" }

/-- The watermark-enabled environment whose injector fails on every
input. -/
def env6 : Env :=
  { baseEnv with
    proj := { baseProj with watermark := true },
    watermarkResult := fun _ => none,
    entries := [entryIndex] }

/-- Counterexample to C6 as stated: in env6 the job succeeds and the
bundle holds the valid non-directory entry index.html, yet no object at
all is uploaded for it, because the watermark injector failed and the
entry was skipped. -/
theorem c6_counterexample :
    (Work env6 baseJob).result = Outcome.ok ∧
    env6.entries = [entryIndex] ∧
    entryIndex.isDir = false ∧
    validFileName (pathClean entryIndex.name) = true ∧
    ((Work env6 baseJob).trace.filter
      (uploadsTo "deployments/p-1/webroot/index.html")).length = 0 :=
  ⟨by decide, rfl, rfl, by decide, by decide⟩

/-- C6 (amended): for a non-directory entry the loop skips it exactly
when some component of its cleaned name fails the character filter, a
skip neither uploads nor fails the job; otherwise, unless the entry is
dropped by a failed watermark injection, and provided its upload call
succeeds, the loop uploads exactly one object for it, to the webroot
key of the cleaned name with ACL public-read, leaving the processing of
the remaining entries unchanged. -/
theorem c6_entry_filter (env : Env) (webroot : String) (e : TarEntry)
    (rest : List TarEntry) (hdir : e.isDir = false) :
    (processEntry env webroot e = EntryStep.skipInvalid ↔
      validFileName (pathClean e.name) = false) ∧
    (validFileName (pathClean e.name) = false →
      runLoop env webroot (e :: rest) = runLoop env webroot rest) ∧
    (validFileName (pathClean e.name) = true →
      processEntry env webroot e ≠ EntryStep.skipWatermark →
      env.uploadOk (webroot ++ "/" ++ pathClean e.name) = true →
      ∃ c, processEntry env webroot e =
          EntryStep.uploadedOk (webroot ++ "/" ++ pathClean e.name) c
            (stripContentTypeParams (mimeTypeByExtension (filepathExt (pathClean e.name)))) ∧
        runLoop env webroot (e :: rest) =
          (Effect.upload (webroot ++ "/" ++ pathClean e.name) c
              (stripContentTypeParams (mimeTypeByExtension (filepathExt (pathClean e.name))))
              "public-read" :: (runLoop env webroot rest).1,
            (runLoop env webroot rest).2)) := by
  refine ⟨⟨?_, ?_⟩, ?_, ?_⟩
  · intro hpe
    by_contra hv
    have hv' : validFileName (pathClean e.name) = true := by
      cases hvv : validFileName (pathClean e.name)
      · exact absurd hvv hv
      · rfl
    rw [processEntry_valid env webroot e hdir hv'] at hpe
    revert hpe
    split
    · split
      · simp
      · split <;> simp
    · split <;> simp
  · intro hv
    exact processEntry_invalid env webroot e hdir hv
  · intro hv
    rw [runLoop, processEntry_invalid env webroot e hdir hv]
  · intro hv hnw hup
    have hpv := processEntry_valid env webroot e hdir hv
    by_cases hcond : env.proj.watermark = true ∧
        stripContentTypeParams (mimeTypeByExtension (filepathExt (pathClean e.name))) =
          "text/html" ∧
        e.size ≤ maxFileSizeToWatermark
    · rw [if_pos hcond] at hpv
      cases hw : env.watermarkResult e.content with
      | none =>
          rw [hw] at hpv
          exact absurd hpv hnw
      | some w =>
          rw [hw] at hpv
          have hpv' : processEntry env webroot e =
              EntryStep.uploadedOk (webroot ++ "/" ++ pathClean e.name) w
                (stripContentTypeParams (mimeTypeByExtension (filepathExt (pathClean e.name)))) := by
            rw [hpv]
            simp [hup]
          refine ⟨w, hpv', ?_⟩
          rw [runLoop, hpv']
    · rw [if_neg hcond] at hpv
      have hpv' : processEntry env webroot e =
          EntryStep.uploadedOk (webroot ++ "/" ++ pathClean e.name) e.content
            (stripContentTypeParams (mimeTypeByExtension (filepathExt (pathClean e.name)))) := by
        rw [hpv]
        simp [hup]
      refine ⟨e.content, hpv', ?_⟩
      rw [runLoop, hpv']

/-- Witness for the amended C6 at the standard entry: exactly one
upload, with the webroot key of the cleaned name. -/
theorem c6_entry_filter_witness :
    ∃ c, processEntry baseEnv "deployments/p-1/webroot" entryIndex =
        EntryStep.uploadedOk ("deployments/p-1/webroot" ++ "/" ++ pathClean entryIndex.name) c
          (stripContentTypeParams (mimeTypeByExtension (filepathExt (pathClean entryIndex.name)))) ∧
      runLoop baseEnv "deployments/p-1/webroot" (entryIndex :: []) =
        (Effect.upload ("deployments/p-1/webroot" ++ "/" ++ pathClean entryIndex.name) c
            (stripContentTypeParams (mimeTypeByExtension (filepathExt (pathClean entryIndex.name))))
            "public-read" :: (runLoop baseEnv "deployments/p-1/webroot" []).1,
          (runLoop baseEnv "deployments/p-1/webroot" []).2) :=
  (c6_entry_filter baseEnv "deployments/p-1/webroot" entryIndex [] rfl).2.2
    (by decide) (by decide) (by decide)

/-- When the webroot upload is not skipped and the worker returns nil,
its trace contains the jsenv upload built from the source template. -/
theorem work_jsenv_or (env : Env) (d : DeployJobData)
    (hw : d.skipWebrootUpload = false) :
    (Work env d).result ≠ Outcome.ok ∨
    Effect.upload ("deployments/" ++ env.depl.prefixID ++ "/webroot" ++ "/jsenv.js")
      (jsenvContent (Json.render env.depl.jsEnvVars)) "application/javascript" "public-read"
      ∈ (Work env d).trace := by
  unfold Work
  split
  · exact Or.inl (by simp)
  · split
    · exact Or.inl (by simp)
    · split
      · exact Or.inl (by simp)
      · split
        · exact Or.inl (by simp)
        · split
          · exact Or.inl (by simp)
          · rcases workLocked_jsenv env d hw with h | hmem
            · exact Or.inl h
            · refine Or.inr ?_
              show _ ∈ (workLocked env d).trace ++ [Effect.unlock]
              exact List.mem_append_left _ hmem

set_option maxRecDepth 8000 in
/-- Counterexample to C7 as stated: the successful run uploads jsenv.js
with the content built from the source template (tab indented), which
differs from the spec template instantiated at the same js_env_vars
bytes; no upload in the trace carries the spec template content. -/
theorem c7_counterexample :
    (Work baseEnv baseJob).result = Outcome.ok ∧
    (Work baseEnv baseJob).trace.filter (uploadsTo "deployments/p-1/webroot/jsenv.js") =
      [Effect.upload "deployments/p-1/webroot/jsenv.js"
        (jsenvContent (Json.render baseDepl.jsEnvVars)) "application/javascript"
        "public-read"] ∧
    jsenvContent (Json.render baseDepl.jsEnvVars) ≠
      specJsenvContent (Json.render baseDepl.jsEnvVars) ∧
    ((Work baseEnv baseJob).trace.filter fun e =>
      match e with
      | Effect.upload _ c _ _ => decide (c = specJsenvContent (Json.render baseDepl.jsEnvVars))
      | _ => false) = [] :=
  ⟨by decide, by decide, by decide, by decide⟩

/-- C7 (amended): for every job with skip_webroot_upload false that
returns nil, the trace contains an upload of
deployments/PrefixID/webroot/jsenv.js whose content is the source
template jsenvFormat with its format verb replaced by the js_env_vars
bytes verbatim, with content type application/javascript and ACL
public-read. -/
theorem c7_jsenv_content (env : Env) (d : DeployJobData)
    (hw : d.skipWebrootUpload = false) (hok : (Work env d).result = Outcome.ok) :
    Effect.upload ("deployments/" ++ env.depl.prefixID ++ "/webroot" ++ "/jsenv.js")
      (jsenvContent (Json.render env.depl.jsEnvVars)) "application/javascript" "public-read"
      ∈ (Work env d).trace := by
  rcases work_jsenv_or env d hw with h | hmem
  · exact absurd hok h
  · exact hmem

/-- Witness for the amended C7 at the concrete environment. -/
theorem c7_jsenv_content_witness :
    Effect.upload ("deployments/" ++ baseEnv.depl.prefixID ++ "/webroot" ++ "/jsenv.js")
      (jsenvContent (Json.render baseEnv.depl.jsEnvVars)) "application/javascript"
      "public-read" ∈ (Work baseEnv baseJob).trace :=
  c7_jsenv_content baseEnv baseJob rfl (by decide)

/-- C8: for a valid non-directory entry, the content handed to the
object store is the watermark injector output exactly when the project
watermark flag is set, the stripped extension-derived content type is
text/html and the size is at most MaxFileSizeToWatermark; when the
injector fails on an eligible entry the entry is skipped and the loop
continues; otherwise the original content is uploaded. -/
theorem c8_watermark_routing (env : Env) (webroot : String) (e : TarEntry)
    (rest : List TarEntry) (hdir : e.isDir = false)
    (hval : validFileName (pathClean e.name) = true) :
    ((env.proj.watermark = true ∧
        stripContentTypeParams (mimeTypeByExtension (filepathExt (pathClean e.name))) =
          "text/html" ∧
        e.size ≤ maxFileSizeToWatermark) →
      (env.watermarkResult e.content = none →
        processEntry env webroot e = EntryStep.skipWatermark ∧
        runLoop env webroot (e :: rest) = runLoop env webroot rest) ∧
      (∀ w, env.watermarkResult e.content = some w →
        (processEntry env webroot e).contentOf = some w)) ∧
    (¬(env.proj.watermark = true ∧
        stripContentTypeParams (mimeTypeByExtension (filepathExt (pathClean e.name))) =
          "text/html" ∧
        e.size ≤ maxFileSizeToWatermark) →
      (processEntry env webroot e).contentOf = some e.content) := by
  have hpv := processEntry_valid env webroot e hdir hval
  constructor
  · intro hcond
    rw [if_pos hcond] at hpv
    constructor
    · intro hwm
      rw [hwm] at hpv
      exact ⟨hpv, by rw [runLoop, hpv]⟩
    · intro w hwm
      rw [hwm] at hpv
      cases hu : env.uploadOk (webroot ++ "/" ++ pathClean e.name) <;>
        simp [hpv, hu, EntryStep.contentOf]
  · intro hcond
    rw [if_neg hcond] at hpv
    cases hu : env.uploadOk (webroot ++ "/" ++ pathClean e.name) <;>
      simp [hpv, hu, EntryStep.contentOf]

/-- The watermark-enabled environment with a working injector. -/
def envWm : Env := { baseEnv with proj := { baseProj with watermark := true } }

/-- Witness for C8: the eligible html entry is watermarked, the same
entry under a project without the flag is uploaded as is. -/
theorem c8_watermark_routing_witness :
    (processEntry envWm "deployments/p-1/webroot" entryIndex).contentOf =
      some ("<html><body>hi</body></html>" ++ "<!-- wm -->") ∧
    (processEntry baseEnv "deployments/p-1/webroot" entryIndex).contentOf =
      some entryIndex.content :=
  ⟨((c8_watermark_routing envWm "deployments/p-1/webroot" entryIndex [] rfl
      (by decide)).1 (by refine ⟨rfl, by decide, by decide⟩)).2
      ("<html><body>hi</body></html>" ++ "<!-- wm -->") rfl,
   (c8_watermark_routing baseEnv "deployments/p-1/webroot" entryIndex [] rfl
      (by decide)).2 (by decide)⟩

end Rise
